import Mathlib

/-!
Verification of the contract-analysis pipeline in src/app/actions.ts
(function analyzeContractAction).

The embedding models:
  * the uploaded file (size, declared media type, content bytes),
  * the validator (lines 11-23 of actions.ts),
  * the JSON-extraction regexes of line 102 and the fence-stripping
    replace of line 103,
  * JavaScript JSON.parse (a fuel-based recursive-descent parser over
    the JSON grammar; numbers are modelled as exact rationals),
  * the outer error classification (lines 115-142),
as total Lean functions.  A thrown JavaScript error is modelled as an
explicit error value routed to the classification step, exactly as the
try/catch of the source routes it.  The external model call is a
parameter: its behaviour (a response text, a thrown Error with a
message, or a thrown non-Error value) is an input of the analyzer.
The base64 encoding and prompt construction of lines 26-94 do not
influence the returned outcome and are not modelled.
-/

namespace AuthTruth

/-- JSON values as produced by JSON.parse.  Object members are kept in
source order; numbers are exact rationals (the claims under study never
depend on float rounding). -/
inductive Json where
  | null : Json
  | bool (b : Bool) : Json
  | num (q : ℚ) : Json
  | str (s : String) : Json
  | arr (elems : List Json) : Json
  | obj (members : List (String × Json)) : Json
deriving Inhabited

/-- An uploaded file as seen by the action: declared byte size, declared
media type, and content bytes (the content never influences the outcome;
it only feeds the external call). -/
structure FileData where
  size : Nat
  type : String
  content : List Nat

/-- The value returned to the caller: either the parsed data or an error
string (lines 106, 117-142). -/
inductive Outcome where
  | success (data : Json)
  | failure (error : String)

/-- Behaviour of the external generative-model call for one request:
it returns a response text, or throws an Error carrying a message, or
throws a non-Error value. -/
inductive ExtBehavior where
  | ok (text : String)
  | throwMsg (msg : String)
  | throwNonError

/-- A value caught by the outer catch block: an Error instance with its
message, or any non-Error thrown value (line 115 tests instanceof). -/
inductive Thrown where
  | err (msg : String)
  | nonError

/-! Character classes.  isJsWs is the JavaScript regex class \s (used by
the fence regex of line 102); isJsonWs is the whitespace accepted by
JSON.parse, a strict subset. -/

/-- Whitespace for the JavaScript regex class \s. -/
def isJsWs (c : Char) : Bool :=
  c = ' ' || c = '\t' || c = '\n' || c = '\r' ||
  c = Char.ofNat 11 || c = Char.ofNat 12 ||
  c = Char.ofNat 0xa0 || c = Char.ofNat 0x1680 ||
  (0x2000 ≤ c.toNat && c.toNat ≤ 0x200a) ||
  c = Char.ofNat 0x2028 || c = Char.ofNat 0x2029 ||
  c = Char.ofNat 0x202f || c = Char.ofNat 0x205f ||
  c = Char.ofNat 0x3000 || c = Char.ofNat 0xfeff

/-- Whitespace accepted by JSON.parse. -/
def isJsonWs (c : Char) : Bool :=
  c = ' ' || c = '\t' || c = '\n' || c = '\r'

/-- Drop leading JSON whitespace. -/
def skipWs (s : List Char) : List Char := s.dropWhile isJsonWs

/-- Remove JSON whitespace from both ends. -/
def trimWs (s : List Char) : List Char :=
  ((s.dropWhile isJsonWs).reverse.dropWhile isJsonWs).reverse

/-! String searching, modelling String.prototype.includes and the
anchoring of regex matches. -/

/-- Index of the first occurrence of pat in s (None if it never occurs).
This is the position at which a JavaScript regex made of the literal
characters pat first matches. -/
def firstIdx? (pat : List Char) : List Char → Option Nat
  | [] => if pat.isPrefixOf ([] : List Char) then some 0 else none
  | c :: t =>
    if pat.isPrefixOf (c :: t) then some 0
    else (firstIdx? pat t).map (· + 1)

/-- Index of the last occurrence of character c in s. -/
def lastIdx? (c : Char) : List Char → Option Nat
  | [] => none
  | x :: t =>
    match lastIdx? c t with
    | some j => some (j + 1)
    | none => if x = c then some 0 else none

/-- JavaScript String.prototype.includes (line 116, 121, 126). -/
def includes (s pat : String) : Bool := (firstIdx? pat.data s.data).isSome

/-- The characters of the opening fence marker of the regex on line 102. -/
def fenceOpen : List Char := "```json".data

/-- The characters of a plain fence marker. -/
def fence3 : List Char := "```".data

/-! The two extraction regexes of line 102.

Regex 1 is /```json\s*([\s\S]*?)\s*```/ : it matches iff the text has an
occurrence of the literal marker followed somewhere later by a plain
fence marker; the match runs from the first occurrence of the opening
marker to the first occurrence of a closing marker after it (the inner
quantifier is lazy, so the earliest closing fence wins, and any later
start position would itself begin with a closing fence).

Regex 2 is /{[\s\S]*}/ : greedy, so it matches from the first opening
brace to the last closing brace of the text (and only matches when a
closing brace occurs strictly after the first opening brace; the first
character of the span is an opening brace, so the last closing brace of
the suffix can never sit at offset 0). -/

/-- Start index of the fence match and length of the text between the
markers, when regex 1 matches. -/
def fenceSpan? (t : List Char) : Option (Nat × Nat) :=
  match firstIdx? fenceOpen t with
  | none => none
  | some i =>
    match firstIdx? fence3 (t.drop (i + 7)) with
    | none => none
    | some k => some (i, k)

/-- match[0] of regex 1: opening marker, inner span, closing marker. -/
def matchFence0 (t : List Char) : Option (List Char) :=
  (fenceSpan? t).map (fun ik => (t.drop ik.1).take (ik.2 + 10))

/-- The text strictly between the two fence markers of the match
(surrounding whitespace still included). -/
def fenceBody (t : List Char) : Option (List Char) :=
  (fenceSpan? t).map (fun ik => (t.drop (ik.1 + 7)).take ik.2)

/-- The capture group of regex 1: the inner span with the surrounding
\s-runs removed (leading \s* is greedy, the lazy inner group pushes the
trailing whitespace into the closing \s*). -/
def fenceInner (t : List Char) : Option (List Char) :=
  (fenceBody t).map (fun body =>
    (((body.dropWhile isJsWs).reverse.dropWhile isJsWs).reverse))

/-- Whether the whitespace matched by the two \s-runs of the fence regex
consists only of JSON whitespace.  The regex class \s is larger than the
whitespace JSON.parse accepts, so this is the condition under which the
candidate (whitespace included) and the inner content parse alike. -/
def fenceWsOk (t : List Char) : Bool :=
  match fenceBody t with
  | some body =>
    (body.takeWhile isJsWs).all isJsonWs &&
    ((body.dropWhile isJsWs).reverse.takeWhile isJsWs).all isJsonWs
  | none => false

/-- match[0] of regex 2: first opening brace to last closing brace. -/
def matchBrace (t : List Char) : Option (List Char) :=
  match firstIdx? ['{'] t with
  | none => none
  | some i =>
    match lastIdx? '}' (t.drop i) with
    | none => none
    | some j => some ((t.drop i).take (j + 1))

/-- One pass of .replace(/```json|```/g, "") (line 103), fuelled: at each
position the seven-character marker is preferred over the three-character
one, exactly as regex alternation prefers its first branch. -/
def stripFencesF : Nat → List Char → List Char
  | 0, s => s
  | _ + 1, [] => []
  | f + 1, c :: rest =>
    if fenceOpen.isPrefixOf (c :: rest) then stripFencesF f (rest.drop 6)
    else if fence3.isPrefixOf (c :: rest) then stripFencesF f (rest.drop 2)
    else c :: stripFencesF f rest

/-- Remove every fence marker, as the replace call of line 103 does. -/
def stripFences (s : List Char) : List Char := stripFencesF s.length s

/-- Lines 102-103: the candidate string handed to JSON.parse.  When a
regex matched, the fence markers are stripped from match[0]; otherwise
the whole response text is used unchanged. -/
def extractCandidate (t : List Char) : List Char :=
  match matchFence0 t with
  | some m => stripFences m
  | none =>
    match matchBrace t with
    | some m => stripFences m
    | none => t

/-! A model of JSON.parse: recursive descent over the JSON grammar. -/

/-- Value of a hexadecimal digit. -/
def hexVal? (c : Char) : Option Nat :=
  if '0' ≤ c ∧ c ≤ '9' then some (c.toNat - 48)
  else if 'a' ≤ c ∧ c ≤ 'f' then some (c.toNat - 87)
  else if 'A' ≤ c ∧ c ≤ 'F' then some (c.toNat - 55)
  else none

/-- Numeric value of a digit run. -/
def digitsVal (ds : List Char) : Nat :=
  ds.foldl (fun a c => a * 10 + (c.toNat - 48)) 0

/-- Parse the body of a JSON string literal, after the opening quote;
returns the decoded characters and the input after the closing quote.
Escapes follow the JSON grammar; an unescaped control character is
rejected.  A \u escape denotes one UTF-16 code unit; surrogate values
are outside Char and collapse to the null character, a corner the claims
never exercise. -/
def parseStringBody : List Char → Option (List Char × List Char)
  | [] => none
  | '"' :: r => some ([], r)
  | '\\' :: r =>
    match r with
    | '"' :: r2 => (parseStringBody r2).map (fun p => ('"' :: p.1, p.2))
    | '\\' :: r2 => (parseStringBody r2).map (fun p => ('\\' :: p.1, p.2))
    | '/' :: r2 => (parseStringBody r2).map (fun p => ('/' :: p.1, p.2))
    | 'b' :: r2 => (parseStringBody r2).map (fun p => (Char.ofNat 8 :: p.1, p.2))
    | 'f' :: r2 => (parseStringBody r2).map (fun p => (Char.ofNat 12 :: p.1, p.2))
    | 'n' :: r2 => (parseStringBody r2).map (fun p => ('\n' :: p.1, p.2))
    | 'r' :: r2 => (parseStringBody r2).map (fun p => ('\r' :: p.1, p.2))
    | 't' :: r2 => (parseStringBody r2).map (fun p => ('\t' :: p.1, p.2))
    | 'u' :: h1 :: h2 :: h3 :: h4 :: r2 =>
      match hexVal? h1, hexVal? h2, hexVal? h3, hexVal? h4 with
      | some a, some b, some c, some d =>
        (parseStringBody r2).map
          (fun p => (Char.ofNat (a * 4096 + b * 256 + c * 16 + d) :: p.1, p.2))
      | _, _, _, _ => none
    | _ => none
  | c :: r =>
    if c.toNat < 32 then none
    else (parseStringBody r).map (fun p => (c :: p.1, p.2))

/-- Parse the optional exponent part of a number and scale the value. -/
def parseExpPart (v : ℚ) (s : List Char) : Option (ℚ × List Char) :=
  match s with
  | 'e' :: r => parseExpDigits v r
  | 'E' :: r => parseExpDigits v r
  | _ => some (v, s)
where
  parseExpDigits (v : ℚ) (s : List Char) : Option (ℚ × List Char) :=
    let sp := match s with
      | '+' :: r => ((1 : Int), r)
      | '-' :: r => ((-1 : Int), r)
      | _ => ((1 : Int), s)
    let ds := sp.2.takeWhile Char.isDigit
    let r2 := sp.2.dropWhile Char.isDigit
    if ds.isEmpty then none
    else some (v * (10 : ℚ) ^ (sp.1 * (digitsVal ds : Int)), r2)

/-- Parse an unsigned JSON number (integer part, optional fraction,
optional exponent). -/
def parseNumMag (s : List Char) : Option (ℚ × List Char) :=
  let ds := s.takeWhile Char.isDigit
  let rest := s.dropWhile Char.isDigit
  if ds.isEmpty then none
  else if decide (1 < ds.length) && ds.head? = some '0' then none
  else
    let ipart : ℚ := (digitsVal ds : ℚ)
    match rest with
    | '.' :: r2 =>
      let fs := r2.takeWhile Char.isDigit
      let r3 := r2.dropWhile Char.isDigit
      if fs.isEmpty then none
      else parseExpPart (ipart + (digitsVal fs : ℚ) / ((10 : ℚ) ^ fs.length)) r3
    | _ => parseExpPart ipart rest

/-- Parse a JSON number with optional leading minus. -/
def parseNumber (s : List Char) : Option (ℚ × List Char) :=
  match s with
  | '-' :: r => (parseNumMag r).map (fun p => (-p.1, p.2))
  | _ => parseNumMag s

/-- Grammar position of the recursive-descent parser: a value; the
inside of an array just after the opening bracket (whitespace already
skipped); the continuation of an array after an element; likewise for
objects. -/
inductive PMode where
  | val
  | elems
  | elemsTail
  | members
  | membersTail

/-- The recursive-descent core of JSON.parse, fuelled.  In array modes
the accumulated elements are returned wrapped in Json.arr, in object
modes in Json.obj. -/
def parseP : Nat → PMode → List Char → Option (Json × List Char)
  | 0, _, _ => none
  | f + 1, PMode.val, s =>
    match s with
    | 'n' :: 'u' :: 'l' :: 'l' :: r => some (Json.null, r)
    | 't' :: 'r' :: 'u' :: 'e' :: r => some (Json.bool true, r)
    | 'f' :: 'a' :: 'l' :: 's' :: 'e' :: r => some (Json.bool false, r)
    | '"' :: r => (parseStringBody r).map (fun p => (Json.str (String.mk p.1), p.2))
    | '{' :: r => parseP f PMode.members (skipWs r)
    | '[' :: r => parseP f PMode.elems (skipWs r)
    | _ => (parseNumber s).map (fun p => (Json.num p.1, p.2))
  | f + 1, PMode.elems, s =>
    match s with
    | ']' :: r => some (Json.arr [], r)
    | _ =>
      match parseP f PMode.val s with
      | none => none
      | some (v, r1) =>
        match parseP f PMode.elemsTail (skipWs r1) with
        | some (Json.arr vs, r2) => some (Json.arr (v :: vs), r2)
        | _ => none
  | f + 1, PMode.elemsTail, s =>
    match s with
    | ',' :: r =>
      match parseP f PMode.val (skipWs r) with
      | none => none
      | some (v, r1) =>
        match parseP f PMode.elemsTail (skipWs r1) with
        | some (Json.arr vs, r2) => some (Json.arr (v :: vs), r2)
        | _ => none
    | ']' :: r => some (Json.arr [], r)
    | _ => none
  | f + 1, PMode.members, s =>
    match s with
    | '}' :: r => some (Json.obj [], r)
    | '"' :: r =>
      match parseStringBody r with
      | none => none
      | some (k, r1) =>
        match skipWs r1 with
        | ':' :: r2 =>
          match parseP f PMode.val (skipWs r2) with
          | none => none
          | some (v, r3) =>
            match parseP f PMode.membersTail (skipWs r3) with
            | some (Json.obj kvs, r4) => some (Json.obj ((String.mk k, v) :: kvs), r4)
            | _ => none
        | _ => none
    | _ => none
  | f + 1, PMode.membersTail, s =>
    match s with
    | ',' :: r =>
      match skipWs r with
      | '"' :: r1 =>
        match parseStringBody r1 with
        | none => none
        | some (k, r2) =>
          match skipWs r2 with
          | ':' :: r3 =>
            match parseP f PMode.val (skipWs r3) with
            | none => none
            | some (v, r4) =>
              match parseP f PMode.membersTail (skipWs r4) with
              | some (Json.obj kvs, r5) => some (Json.obj ((String.mk k, v) :: kvs), r5)
              | _ => none
          | _ => none
      | _ => none
    | '}' :: r => some (Json.obj [], r)
    | _ => none

/-- JSON.parse.  The JSON grammar accepts exactly whitespace, then one
value, then whitespace; a value itself starts and ends on a non-space
character.  The model therefore trims the outer whitespace and demands
that one value span the whole remainder.  A result of none models the
SyntaxError thrown by JSON.parse.  The fuel bound suffices because the
parser consumes at least one character for every two fuel units. -/
def jsonParse (t : String) : Option Json :=
  match parseP (2 * (trimWs t.data).length + 2) PMode.val (trimWs t.data) with
  | some (v, rest) => if rest = [] then some v else none
  | none => none

/-! The validator and the orchestrator. -/

/-- Line 21: the media type must start with image/ or equal
application/pdf. -/
def typeSupported (t : String) : Bool :=
  "image/".data.isPrefixOf t.data || t == "application/pdf"

/-- Lines 16-23: size check then type check; the first violated rule
produces the thrown message. -/
def validate (f : FileData) : Option String :=
  if 10 * 1024 * 1024 < f.size then some "File size exceeds 10MB limit"
  else if typeSupported f.type = false then some "Only image and PDF files are supported"
  else none

/-- Lines 115-142: the outer catch block, classifying a caught value
into the returned failure. -/
def classify : Thrown → Outcome
  | Thrown.err msg =>
    if includes msg "deprecated" then
      Outcome.failure "The AI model is being updated. Please try again in a few moments."
    else if includes msg "rate limit" then
      Outcome.failure "Too many requests. Please try again in a few minutes."
    else if includes msg "parse" then
      Outcome.failure "Unable to analyze the contract. Please try a clearer image or a different file."
    else Outcome.failure msg
  | Thrown.nonError =>
    Outcome.failure "An unknown error occurred while analyzing the contract."

/-- The whole of analyzeContractAction, instrumented: the second
component records whether the external model call was reached (line 96).
Every throw of the source body is routed to classify, exactly as the
try/catch does; the parse failure of line 109 throws the message
containing the word parse. -/
def analyzeRun (file : Option FileData) (ext : ExtBehavior) : Outcome × Bool :=
  match file with
  | none => (classify (Thrown.err "No file provided"), false)
  | some f =>
    match validate f with
    | some msg => (classify (Thrown.err msg), false)
    | none =>
      match ext with
      | ExtBehavior.throwMsg m => (classify (Thrown.err m), true)
      | ExtBehavior.throwNonError => (classify Thrown.nonError, true)
      | ExtBehavior.ok text =>
        match jsonParse (String.mk (extractCandidate text.data)) with
        | some v => (Outcome.success v, true)
        | none => (classify (Thrown.err "Failed to parse the AI response. Please try again."), true)

/-- The caller-facing outcome of analyzeContractAction. -/
def analyze (file : Option FileData) (ext : ExtBehavior) : Outcome :=
  (analyzeRun file ext).1

/-- Whether the external model call was issued during the request. -/
def externalInvoked (file : Option FileData) (ext : ExtBehavior) : Bool :=
  (analyzeRun file ext).2

/-! The AnalysisResult shape.  The code trusts the parsed object as-is;
the predicate below is used only in claim hypotheses. -/

/-- JavaScript property lookup on parsed object members (a later
duplicate key overrides an earlier one, as in JSON.parse). -/
def jget (kvs : List (String × Json)) (k : String) : Option Json :=
  kvs.foldl (fun acc kv => if kv.1 = k then some kv.2 else acc) none

/-- Allowed values of the flag field. -/
def flagOk (s : String) : Bool :=
  s == "normal" || s == "warning" || s == "high" || s == "good"

/-- Allowed values of the severity field. -/
def severityOk (s : String) : Bool :=
  s == "high" || s == "warning" || s == "good"

/-- Modelled from the spec: one entry of contractTerms (section 3 of the
spec; the source never validates the shape, so no code embodies it). -/
def contractTermOk (j : Json) : Bool :=
  match j with
  | Json.obj kvs =>
    (match jget kvs "term" with | some (Json.str _) => true | _ => false) &&
    (match jget kvs "value" with | some (Json.str _) => true | _ => false) &&
    (match jget kvs "flag" with | some (Json.str s) => flagOk s | _ => false) &&
    (match jget kvs "details" with
     | some (Json.str _) => true
     | none => true
     | _ => false)
  | _ => false

/-- Modelled from the spec: one entry of potentialIssues (section 3 of
the spec). -/
def issueOk (j : Json) : Bool :=
  match j with
  | Json.obj kvs =>
    (match jget kvs "title" with | some (Json.str _) => true | _ => false) &&
    (match jget kvs "description" with | some (Json.str _) => true | _ => false) &&
    (match jget kvs "severity" with | some (Json.str s) => severityOk s | _ => false) &&
    (match jget kvs "recommendation" with
     | some (Json.str _) => true
     | none => true
     | _ => false)
  | _ => false

/-- Modelled from the spec: a valid AnalysisResult object (section 3 of
the spec: the four fields, with trustworthinessScore an integer in
[0, 100]).  Used only in claim hypotheses; the code itself performs no
such validation. -/
def validAnalysisResult (j : Json) : Bool :=
  match j with
  | Json.obj kvs =>
    (match jget kvs "contractTerms" with
     | some (Json.arr ts) => ts.all contractTermOk
     | _ => false) &&
    (match jget kvs "potentialIssues" with
     | some (Json.arr ps) => ps.all issueOk
     | _ => false) &&
    (match jget kvs "trustworthinessScore" with
     | some (Json.num q) => decide (q.den = 1 ∧ 0 ≤ q.num ∧ q.num ≤ 100)
     | _ => false) &&
    (match jget kvs "summary" with | some (Json.str _) => true | _ => false)
  | _ => false

/-- Whether a parsed value is a JSON object at all. -/
def isJsonObject : Json → Bool
  | Json.obj _ => true
  | _ => false

/-- The backtick character, obtained from the fence marker so that the
source never spells it outside a string literal. -/
def btChar : Char := fence3.headI

theorem fence3_eq : fence3 = [btChar, btChar, btChar] := by decide

theorem fenceOpen_eq :
    fenceOpen = btChar :: btChar :: btChar :: 'j' :: 's' :: 'o' :: 'n' :: [] := by decide

/-! Facts about the searching primitives. -/

theorem firstIdx?_some_prefix {pat : List Char} :
    ∀ {s : List Char} {i : Nat}, firstIdx? pat s = some i → pat <+: s.drop i := by
  intro s
  induction s with
  | nil =>
    intro i h
    unfold firstIdx? at h
    split at h
    · cases h
      simp only [List.drop_zero]
      exact List.isPrefixOf_iff_prefix.mp (by assumption)
    · cases h
  | cons c t ih =>
    intro i h
    unfold firstIdx? at h
    split at h
    · cases h
      simp only [List.drop_zero]
      exact List.isPrefixOf_iff_prefix.mp (by assumption)
    · rcases Option.map_eq_some'.mp h with ⟨j, hj, hji⟩
      subst hji
      simpa [List.drop_succ_cons] using ih hj

theorem firstIdx?_some_minimal {pat : List Char} :
    ∀ {s : List Char} {i : Nat}, firstIdx? pat s = some i →
      ∀ j, j < i → ¬ pat <+: s.drop j := by
  intro s
  induction s with
  | nil =>
    intro i h j hj
    unfold firstIdx? at h
    split at h
    · cases h; omega
    · cases h
  | cons c t ih =>
    intro i h j hj
    unfold firstIdx? at h
    split at h
    · cases h; omega
    · rcases Option.map_eq_some'.mp h with ⟨k, hk, hki⟩
      subst hki
      match j with
      | 0 =>
        intro hp
        exact (by assumption : ¬ pat.isPrefixOf (c :: t) = true)
          (List.isPrefixOf_iff_prefix.mpr hp)
      | Nat.succ j' =>
        simpa [List.drop_succ_cons] using ih hk j' (by omega)

theorem firstIdx?_none_iff {pat : List Char} :
    ∀ {s : List Char}, firstIdx? pat s = none ↔ ∀ i, ¬ pat <+: s.drop i := by
  intro s
  induction s with
  | nil =>
    unfold firstIdx?
    constructor
    · intro h i
      split at h
      · cases h
      · intro hp
        exact (by assumption : ¬ pat.isPrefixOf ([] : List Char) = true)
          (List.isPrefixOf_iff_prefix.mpr (by simpa using hp))
    · intro h
      split
      · exact absurd (List.isPrefixOf_iff_prefix.mp (by assumption)) (by simpa using h 0)
      · rfl
  | cons c t ih =>
    unfold firstIdx?
    constructor
    · intro h i
      split at h
      · cases h
      · match i with
        | 0 =>
          intro hp
          exact (by assumption : ¬ pat.isPrefixOf (c :: t) = true)
            (List.isPrefixOf_iff_prefix.mpr hp)
        | Nat.succ i' =>
          simpa [List.drop_succ_cons] using (ih.mp (by simpa using h)) i'
    · intro h
      split
      · exact absurd (List.isPrefixOf_iff_prefix.mp (by assumption)) (by simpa using h 0)
      · simp only [Option.map_eq_none']
        exact ih.mpr (fun i => by simpa [List.drop_succ_cons] using h (i + 1))

theorem firstIdx?_none_drop {pat s : List Char} (h : firstIdx? pat s = none) (n : Nat) :
    firstIdx? pat (s.drop n) = none := by
  rw [firstIdx?_none_iff] at h ⊢
  intro i
  rw [List.drop_drop]
  exact h (n + i)

theorem firstIdx?_none_take {pat s : List Char} (h : firstIdx? pat s = none) (n : Nat) :
    firstIdx? pat (s.take n) = none := by
  rw [firstIdx?_none_iff] at h ⊢
  intro i hp
  rw [List.drop_take] at hp
  exact h i (hp.trans (List.take_prefix _ _))

theorem firstIdx?_fenceOpen_none {s : List Char} (h : firstIdx? fence3 s = none) :
    firstIdx? fenceOpen s = none := by
  rw [firstIdx?_none_iff] at h ⊢
  intro i hp
  exact h i (List.IsPrefix.trans ⟨"json".data, by decide⟩ hp)

theorem firstIdx?_single_decomp {c : Char} :
    ∀ {s : List Char} {i : Nat}, firstIdx? [c] s = some i →
      ∃ pre suf, s = pre ++ c :: suf ∧ pre.length = i ∧ c ∉ pre := by
  intro s
  induction s with
  | nil =>
    intro i h
    unfold firstIdx? at h
    split at h
    · rename_i hc
      simp [List.isPrefixOf] at hc
    · cases h
  | cons x t ih =>
    intro i h
    unfold firstIdx? at h
    split at h
    · rename_i hc
      have hcx : c = x := by simpa [List.isPrefixOf] using hc
      cases h
      exact ⟨[], t, by simp [hcx], rfl, by simp⟩
    · rename_i hc
      have hcx : ¬ c = x := by simpa [List.isPrefixOf] using hc
      rcases Option.map_eq_some'.mp h with ⟨j, hj, hji⟩
      subst hji
      rcases ih hj with ⟨pre, suf, hs, hl, hnc⟩
      refine ⟨x :: pre, suf, by simp [hs], by simp [hl], ?_⟩
      intro hmem
      rcases List.mem_cons.mp hmem with h1 | h1
      · exact hcx h1
      · exact hnc h1

theorem lastIdx?_none {c : Char} :
    ∀ {s : List Char}, lastIdx? c s = none → c ∉ s := by
  intro s
  induction s with
  | nil => intro _; simp
  | cons x t ih =>
    intro h
    unfold lastIdx? at h
    cases ht : lastIdx? c t with
    | some j => rw [ht] at h; cases h
    | none =>
      rw [ht] at h
      by_cases hx : x = c
      · rw [if_pos hx] at h; cases h
      · rw [if_neg hx] at h
        simp only [List.mem_cons, not_or]
        exact ⟨fun he => hx he.symm, ih ht⟩

theorem lastIdx?_some_decomp {c : Char} :
    ∀ {s : List Char} {j : Nat}, lastIdx? c s = some j →
      ∃ pre suf, s = pre ++ c :: suf ∧ pre.length = j ∧ c ∉ suf := by
  intro s
  induction s with
  | nil => intro j h; cases h
  | cons x t ih =>
    intro j h
    unfold lastIdx? at h
    cases ht : lastIdx? c t with
    | some j' =>
      rw [ht] at h
      cases h
      rcases ih ht with ⟨pre, suf, hs, hl, hnc⟩
      exact ⟨x :: pre, suf, by simp [hs], by simp [hl], hnc⟩
    | none =>
      rw [ht] at h
      by_cases hx : x = c
      · rw [if_pos hx] at h
        cases h
        exact ⟨[], t, by simp [hx], rfl, lastIdx?_none ht⟩
      · rw [if_neg hx] at h; cases h

theorem matchBrace_decomp {t m : List Char} (h : matchBrace t = some m) :
    ∃ pre post, t = pre ++ m ++ post ∧ (∀ x ∈ pre, x ≠ '{') ∧
      (∀ x ∈ post, x ≠ '}') ∧ m.head? = some '{' ∧ m.getLast? = some '}' := by
  unfold matchBrace at h
  cases h1 : firstIdx? ['{'] t with
  | none => rw [h1] at h; cases h
  | some i =>
    rw [h1] at h
    dsimp only at h
    cases h2 : lastIdx? '}' (t.drop i) with
    | none => rw [h2] at h; cases h
    | some j =>
      rw [h2] at h
      dsimp only at h
      injection h with hm
      rcases firstIdx?_single_decomp h1 with ⟨pre, suf, hs, hl, hnc⟩
      have hdi : t.drop i = '{' :: suf := by
        rw [hs, ← hl, List.drop_left]
      rw [hdi] at h2
      rcases lastIdx?_some_decomp h2 with ⟨pre2, suf2, hs2, hl2, hnc2⟩
      have hm2 : m = pre2 ++ ['}'] := by
        rw [← hm, hdi, hs2, ← hl2]
        rw [List.take_append 1]
        simp
      have hpre2 : ∃ pre2t, pre2 = '{' :: pre2t := by
        cases pre2 with
        | nil => simp at hs2
        | cons a b =>
          have := (List.cons.injEq _ _ _ _).mp hs2
          exact ⟨b, by rw [this.1]⟩
      refine ⟨pre, suf2, ?_, ?_, ?_, ?_, ?_⟩
      · rw [hs, hs2, hm2]
        simp
      · intro x hx he
        exact hnc (he ▸ hx)
      · intro x hx he
        exact hnc2 (he ▸ hx)
      · rcases hpre2 with ⟨pre2t, hp2⟩
        rw [hm2, hp2]
        rfl
      · rw [hm2]
        exact List.getLast?_concat _

/-! Facts about the fence-stripping replace. -/

theorem stripFencesF_nil (f : Nat) : stripFencesF f [] = [] := by
  cases f <;> rfl

theorem stripFencesF_id : ∀ (f : Nat) (s : List Char), s.length ≤ f →
    firstIdx? fence3 s = none → stripFencesF f s = s := by
  intro f
  induction f with
  | zero =>
    intro s hl _
    rw [List.length_eq_zero.mp (Nat.le_zero.mp hl)]
    rfl
  | succ f ih =>
    intro s hl hno
    cases s with
    | nil => rfl
    | cons c rest =>
      have hno0 : ¬ fence3 <+: (c :: rest) := by
        simpa using firstIdx?_none_iff.mp hno 0
      have e1 : fenceOpen.isPrefixOf (c :: rest) = false := by
        rw [Bool.eq_false_iff]
        intro hp
        exact hno0 (List.IsPrefix.trans ⟨"json".data, by decide⟩
          (List.isPrefixOf_iff_prefix.mp hp))
      have e2 : fence3.isPrefixOf (c :: rest) = false := by
        rw [Bool.eq_false_iff]
        intro hp
        exact hno0 (List.isPrefixOf_iff_prefix.mp hp)
      have htail : firstIdx? fence3 rest = none := by
        rw [firstIdx?_none_iff] at hno ⊢
        intro i
        simpa [List.drop_succ_cons] using hno (i + 1)
      simp only [stripFencesF, e1, e2, Bool.false_eq_true, if_false]
      rw [ih rest (by simp at hl; omega) htail]

theorem fence3_prefix_append_contra {body : List Char}
    (hno : firstIdx? fence3 body = none) (hlen : 3 ≤ body.length)
    (hp : fence3 <+: body ++ fence3) : False := by
  have h3 : fence3 = (body ++ fence3).take 3 := by
    have := List.prefix_iff_eq_take.mp hp
    rwa [(by decide : fence3.length = 3)] at this
  have h4 : (body ++ fence3).take 3 = body.take 3 := by
    rw [List.take_append_eq_append_take]
    rw [(by omega : 3 - body.length = 0)]
    simp
  have h5 : fence3 <+: body := by
    rw [List.prefix_iff_eq_take, (by decide : fence3.length = 3), ← h4, ← h3]
  exact (firstIdx?_none_iff.mp hno 0) (by simpa using h5)

theorem stripFencesF_append_fence3 : ∀ (f : Nat) (body : List Char),
    body.length + 3 ≤ f → firstIdx? fence3 body = none →
    stripFencesF f (body ++ fence3) = body := by
  intro f
  induction f with
  | zero => intro body h _; omega
  | succ f ih =>
    intro body hl hno
    cases body with
    | nil =>
      rw [List.nil_append, fence3_eq]
      have e1 : fenceOpen.isPrefixOf [btChar, btChar, btChar] = false := by decide
      have e2 : fence3.isPrefixOf [btChar, btChar, btChar] = true := by decide
      simp only [stripFencesF, e1, e2, Bool.false_eq_true, if_false, if_true]
      simpa using stripFencesF_nil f
    | cons c tl =>
      rw [List.cons_append]
      have htail : firstIdx? fence3 tl = none := by
        rw [firstIdx?_none_iff] at hno ⊢
        intro i
        simpa [List.drop_succ_cons] using hno (i + 1)
      by_cases hA : fenceOpen.isPrefixOf (c :: (tl ++ fence3)) = true
      · exfalso
        have hp7 := List.isPrefixOf_iff_prefix.mp hA
        have hp3 : fence3 <+: (c :: (tl ++ fence3)) :=
          List.IsPrefix.trans ⟨"json".data, by decide⟩ hp7
        have hlen7 : 7 ≤ (c :: (tl ++ fence3)).length := by
          have := hp7.length_le
          rwa [(by decide : fenceOpen.length = 7)] at this
        have hlen3 : 3 ≤ (c :: tl).length := by
          have hfl : fence3.length = 3 := by decide
          simp [hfl] at hlen7
          simp
          omega
        exact fence3_prefix_append_contra hno hlen3 (by simpa using hp3)
      · by_cases hB : fence3.isPrefixOf (c :: (tl ++ fence3)) = true
        · have hp3 := List.isPrefixOf_iff_prefix.mp hB
          cases tl with
          | nil =>
            obtain ⟨tail, htl⟩ := hp3
            rw [fence3_eq] at htl
            simp only [List.nil_append, List.cons_append, List.cons.injEq] at htl
            obtain ⟨hc, -⟩ := htl
            subst hc
            rw [List.nil_append, fence3_eq]
            have e1 : fenceOpen.isPrefixOf
              [btChar, btChar, btChar, btChar] = false := by decide
            have e2 : fence3.isPrefixOf
              [btChar, btChar, btChar, btChar] = true := by decide
            simp only [stripFencesF, e1, e2, Bool.false_eq_true, if_false, if_true]
            rw [show (List.drop 2 [btChar, btChar, btChar] : List Char) = [btChar]
              from rfl]
            exact stripFencesF_id f [btChar] (by simp at hl ⊢; omega) (by decide)
          | cons c2 tl2 =>
            cases tl2 with
            | nil =>
              obtain ⟨tail, htl⟩ := hp3
              rw [fence3_eq] at htl
              simp only [List.cons_append, List.cons.injEq, List.nil_append] at htl
              obtain ⟨hc, hc2, -⟩ := htl
              subst hc
              subst hc2
              rw [fence3_eq]
              simp only [List.cons_append, List.nil_append]
              have e1 : fenceOpen.isPrefixOf
                [btChar, btChar, btChar, btChar, btChar] = false := by decide
              have e2 : fence3.isPrefixOf
                [btChar, btChar, btChar, btChar, btChar] = true := by decide
              simp only [stripFencesF, e1, e2, Bool.false_eq_true, if_false, if_true]
              rw [show (List.drop 2 [btChar, btChar, btChar, btChar] : List Char) =
                [btChar, btChar] from rfl]
              exact stripFencesF_id f [btChar, btChar] (by simp at hl ⊢; omega)
                (by decide)
            | cons c3 tl3 =>
              exact absurd (by simpa using hp3)
                (fun hp => fence3_prefix_append_contra hno (by simp) hp)
        · have eA : fenceOpen.isPrefixOf (c :: (tl ++ fence3)) = false :=
            Bool.eq_false_iff.mpr hA
          have eB : fence3.isPrefixOf (c :: (tl ++ fence3)) = false :=
            Bool.eq_false_iff.mpr hB
          simp only [stripFencesF, eA, eB, Bool.false_eq_true, if_false]
          rw [ih tl (by simp at hl; omega) htail]

theorem stripFencesF_wrap (f : Nat) (body : List Char) (hf : body.length + 10 ≤ f)
    (hno : firstIdx? fence3 body = none) :
    stripFencesF f (fenceOpen ++ (body ++ fence3)) = body := by
  cases f with
  | zero => omega
  | succ f =>
    rw [fenceOpen_eq]
    simp only [List.cons_append, List.nil_append]
    have e1 : fenceOpen.isPrefixOf
        (btChar :: btChar :: btChar :: 'j' :: 's' :: 'o' :: 'n' :: (body ++ fence3)) =
        true := by
      apply List.isPrefixOf_iff_prefix.mpr
      refine ⟨body ++ fence3, ?_⟩
      rw [fenceOpen_eq]
      simp [List.cons_append]
    simp only [stripFencesF, e1, if_true]
    simp only [List.drop_succ_cons, List.drop_zero]
    exact stripFencesF_append_fence3 f body (by omega) hno

theorem stripFences_wrap {body : List Char} (hno : firstIdx? fence3 body = none) :
    stripFences (fenceOpen ++ body ++ fence3) = body := by
  unfold stripFences
  rw [List.append_assoc]
  apply stripFencesF_wrap
  · simp [(by decide : fenceOpen.length = 7), (by decide : fence3.length = 3)]
    omega
  · exact hno

/-! Structure of a successful fence match. -/

theorem fenceSpan?_spec {t : List Char} {i k : Nat} (h : fenceSpan? t = some (i, k)) :
    firstIdx? fenceOpen t = some i ∧ firstIdx? fence3 (t.drop (i + 7)) = some k := by
  unfold fenceSpan? at h
  cases h1 : firstIdx? fenceOpen t with
  | none => rw [h1] at h; cases h
  | some i' =>
    rw [h1] at h
    dsimp only at h
    cases h2 : firstIdx? fence3 (t.drop (i' + 7)) with
    | none => rw [h2] at h; cases h
    | some k' =>
      rw [h2] at h
      dsimp only at h
      injection h with hik
      obtain ⟨hi, hk⟩ := Prod.mk.injEq _ _ _ _ |>.mp hik
      subst hi
      subst hk
      exact ⟨rfl, h2⟩

theorem fence_extract {t body : List Char} (h : fenceBody t = some body) :
    firstIdx? fence3 body = none ∧ extractCandidate t = body := by
  have hspan : ∃ i k, fenceSpan? t = some (i, k) ∧ body = (t.drop (i + 7)).take k := by
    unfold fenceBody at h
    cases hs : fenceSpan? t with
    | none => rw [hs] at h; cases h
    | some ik =>
      rw [hs] at h
      refine ⟨ik.1, ik.2, rfl, ?_⟩
      injection h with hb
      exact hb.symm
  obtain ⟨i, k, hs, hbody⟩ := hspan
  obtain ⟨h1, h2⟩ := fenceSpan?_spec hs
  obtain ⟨tail1, htail1⟩ := firstIdx?_some_prefix h1
  have hdrop7 : t.drop (i + 7) = tail1 := by
    have h7 : (t.drop i).drop 7 = tail1 := by
      rw [← htail1, (by decide : (7 : Nat) = fenceOpen.length)]
      exact List.drop_left _ _
    rwa [List.drop_drop] at h7
  obtain ⟨tail2, htail2⟩ := firstIdx?_some_prefix h2
  rw [hdrop7] at htail2 hbody
  have hklen : k + 3 ≤ tail1.length := by
    have hlen := congrArg List.length htail2
    simp [(by decide : fence3.length = 3)] at hlen
    omega
  have hblen : body.length = k := by
    rw [hbody]
    simp [List.length_take]
    omega
  have hno : firstIdx? fence3 body = none := by
    rw [firstIdx?_none_iff]
    intro j hp
    have hj : j < k := by
      have hle := hp.length_le
      rw [(by decide : fence3.length = 3)] at hle
      simp [hblen] at hle
      omega
    apply firstIdx?_some_minimal h2 j hj
    rw [hdrop7]
    refine List.IsPrefix.trans hp ?_
    rw [hbody, List.drop_take]
    exact List.take_prefix _ _
  refine ⟨hno, ?_⟩
  have hm0 : matchFence0 t = some ((t.drop i).take (k + 10)) := by
    unfold matchFence0
    rw [hs]
    rfl
  have hdecomp : tail1 = body ++ (fence3 ++ tail2) := by
    conv_lhs => rw [← List.take_append_drop k tail1]
    rw [htail2, hbody]
  have hcand : (t.drop i).take (k + 10) = fenceOpen ++ body ++ fence3 := by
    rw [← htail1]
    rw [show k + 10 = fenceOpen.length + (k + 3) from by
      rw [(by decide : fenceOpen.length = 7)]; omega]
    rw [List.take_append]
    rw [hdecomp, ← hblen]
    rw [show body.length + 3 = body.length + 3 from rfl]
    rw [List.take_append 3]
    rw [show (3 : Nat) = fence3.length + 0 from by decide]
    rw [List.take_append 0]
    simp
  unfold extractCandidate
  rw [hm0]
  dsimp only
  rw [hcand]
  exact stripFences_wrap hno

/-! Whitespace bookkeeping around the matched fence body. -/

theorem dropWhile_append_of_all {p : Char → Bool} :
    ∀ {w s : List Char}, (∀ c ∈ w, p c = true) →
      (w ++ s).dropWhile p = s.dropWhile p := by
  intro w
  induction w with
  | nil => intro s _; rfl
  | cons x t ih =>
    intro s h
    rw [List.cons_append, List.dropWhile_cons, if_pos (h x (by simp))]
    exact ih (fun c hc => h c (by simp [hc]))

theorem dropWhile_head_false {p : Char → Bool} :
    ∀ {s r : List Char} {c : Char}, s.dropWhile p = c :: r → p c = false := by
  intro s
  induction s with
  | nil => intro r c h; cases h
  | cons x t ih =>
    intro r c h
    rw [List.dropWhile_cons] at h
    by_cases hx : p x = true
    · rw [if_pos hx] at h
      exact ih h
    · rw [if_neg hx] at h
      have hxc : x = c := ((List.cons.injEq _ _ _ _).mp h).1
      rw [← hxc]
      exact Bool.eq_false_iff.mpr hx

theorem dropWhile_cons_false {p : Char → Bool} {c : Char} {r : List Char}
    (h : p c = false) : (c :: r).dropWhile p = c :: r := by
  rw [List.dropWhile_cons, if_neg]
  simp [h]

theorem isJsonWs_imp_isJsWs {c : Char} (h : isJsonWs c = true) : isJsWs c = true := by
  unfold isJsonWs at h
  simp only [Bool.or_eq_true, decide_eq_true_eq] at h
  rcases h with ((h | h) | h) | h <;> subst h <;> decide

theorem trimWs_decomp {w1 mid w2 : List Char}
    (hw1 : ∀ c ∈ w1, isJsonWs c = true) (hw2 : ∀ c ∈ w2, isJsonWs c = true)
    (hmidl : mid.dropWhile isJsonWs = mid)
    (hmidr : mid.reverse.dropWhile isJsonWs = mid.reverse) :
    trimWs (w1 ++ mid ++ w2) = mid := by
  unfold trimWs
  rw [List.append_assoc, dropWhile_append_of_all hw1]
  cases mid with
  | nil =>
    rw [List.nil_append]
    have hw2e : w2.dropWhile isJsonWs = [] := by
      rw [show (w2 : List Char) = w2 ++ [] from by simp]
      rw [dropWhile_append_of_all hw2]
      rfl
    rw [hw2e]
    rfl
  | cons a mid' =>
    have ha : isJsonWs a = false := by
      by_cases hp : isJsonWs a = true
      · rw [List.dropWhile_cons, if_pos hp] at hmidl
        have hlc := congrArg List.length hmidl
        have hle := (List.dropWhile_sublist (l := mid') (p := isJsonWs)).length_le
        simp at hlc
        omega
      · exact Bool.eq_false_iff.mpr hp
    rw [show (a :: mid' ++ w2 : List Char) = a :: (mid' ++ w2) from rfl]
    rw [dropWhile_cons_false ha]
    rw [show (a :: (mid' ++ w2) : List Char) = (a :: mid') ++ w2 from rfl]
    rw [List.reverse_append]
    rw [dropWhile_append_of_all (fun c hc => hw2 c (List.mem_reverse.mp hc))]
    rw [hmidr, List.reverse_reverse]

theorem fence_parse_bridge {t body inner : List Char}
    (hb : fenceBody t = some body) (hin : fenceInner t = some inner)
    (hws : fenceWsOk t = true) :
    trimWs body = inner ∧ trimWs inner = inner := by
  unfold fenceInner at hin
  rw [hb] at hin
  injection hin with hin0
  have hin : ((body.dropWhile isJsWs).reverse.dropWhile isJsWs).reverse = inner := hin0
  unfold fenceWsOk at hws
  rw [hb] at hws
  rw [Bool.and_eq_true] at hws
  obtain ⟨hws1, hws2⟩ := hws
  rw [List.all_eq_true] at hws1 hws2
  have hd2 : body.dropWhile isJsWs =
      inner ++ ((body.dropWhile isJsWs).reverse.takeWhile isJsWs).reverse := by
    have hsplit : (body.dropWhile isJsWs).reverse =
        (body.dropWhile isJsWs).reverse.takeWhile isJsWs ++
          (body.dropWhile isJsWs).reverse.dropWhile isJsWs :=
      (List.takeWhile_append_dropWhile _ _).symm
    have h3 := congrArg List.reverse hsplit
    rw [List.reverse_reverse, List.reverse_append, hin] at h3
    exact h3
  have hbody : body = body.takeWhile isJsWs ++
      (inner ++ ((body.dropWhile isJsWs).reverse.takeWhile isJsWs).reverse) := by
    conv_lhs => rw [← List.takeWhile_append_dropWhile isJsWs body, hd2]
  have hmidl : inner.dropWhile isJsonWs = inner := by
    cases hi : inner with
    | nil => rfl
    | cons a r =>
      have hha : isJsWs a = false := by
        apply dropWhile_head_false (s := body)
        rw [hd2, hi]
        rfl
      have haj : isJsonWs a = false := by
        by_cases hj : isJsonWs a = true
        · rw [isJsonWs_imp_isJsWs hj] at hha; cases hha
        · exact Bool.eq_false_iff.mpr hj
      exact dropWhile_cons_false haj
  have hmidr : inner.reverse.dropWhile isJsonWs = inner.reverse := by
    have hrev : inner.reverse = (body.dropWhile isJsWs).reverse.dropWhile isJsWs := by
      rw [← hin, List.reverse_reverse]
    cases hi : inner.reverse with
    | nil => rfl
    | cons a r =>
      have hha : isJsWs a = false := by
        apply dropWhile_head_false (s := (body.dropWhile isJsWs).reverse)
        rw [← hrev, hi]
      have haj : isJsonWs a = false := by
        by_cases hj : isJsonWs a = true
        · rw [isJsonWs_imp_isJsWs hj] at hha; cases hha
        · exact Bool.eq_false_iff.mpr hj
      exact dropWhile_cons_false haj
  have hw2m : ∀ c ∈ ((body.dropWhile isJsWs).reverse.takeWhile isJsWs).reverse,
      isJsonWs c = true := fun c hc => hws2 c (List.mem_reverse.mp hc)
  constructor
  · conv_lhs => rw [hbody]
    rw [← List.append_assoc]
    exact trimWs_decomp hws1 hw2m hmidl hmidr
  · unfold trimWs
    rw [hmidl, hmidr, List.reverse_reverse]

theorem jsonParse_fence {t body inner : List Char} {v : Json}
    (hb : fenceBody t = some body) (hin : fenceInner t = some inner)
    (hws : fenceWsOk t = true)
    (hp : jsonParse (String.mk inner) = some v) :
    jsonParse (String.mk (extractCandidate t)) = some v := by
  obtain ⟨hno, hcand⟩ := fence_extract hb
  obtain ⟨h1, h2⟩ := fence_parse_bridge hb hin hws
  rw [hcand]
  unfold jsonParse at hp ⊢
  rw [show (String.mk body).data = body from rfl, h1]
  rw [show (String.mk inner).data = inner from rfl, h2] at hp
  exact hp

/-! Small helpers about the validator and the orchestration. -/

theorem validate_size_fail {f : FileData} (h : 10 * 1024 * 1024 < f.size) :
    validate f = some "File size exceeds 10MB limit" := by
  unfold validate
  rw [if_pos h]

theorem validate_type_fail {f : FileData} (h1 : f.size ≤ 10 * 1024 * 1024)
    (h2 : typeSupported f.type = false) :
    validate f = some "Only image and PDF files are supported" := by
  unfold validate
  rw [if_neg (by omega), h2, if_pos rfl]

theorem analyzeRun_validate_fail {f : FileData} {ext : ExtBehavior} {m : String}
    (h : validate f = some m) :
    analyzeRun (some f) ext = (classify (Thrown.err m), false) := by
  unfold analyzeRun
  dsimp only
  rw [h]

theorem analyzeRun_throwMsg {f : FileData} {m : String} (h : validate f = none) :
    analyzeRun (some f) (ExtBehavior.throwMsg m) = (classify (Thrown.err m), true) := by
  unfold analyzeRun
  dsimp only
  rw [h]

theorem analyzeRun_ok {f : FileData} {text : String} (h : validate f = none) :
    analyzeRun (some f) (ExtBehavior.ok text) =
      (match jsonParse (String.mk (extractCandidate text.data)) with
       | some v => (Outcome.success v, true)
       | none => (classify (Thrown.err "Failed to parse the AI response. Please try again."),
           true)) := by
  unfold analyzeRun
  dsimp only
  rw [h]

/-! The claims. -/

/-- Claim C1, counterexample: an external error whose message contains both
the substring deprecated and the substring rate limit is classified by the
deprecated branch, which runs first (line 116 before line 121), so the
returned failure is not the throttling message the claim demands. -/
theorem claim1_counterexample :
    includes "deprecated rate limit" "rate limit" = true ∧
    analyze (some (FileData.mk 100 "image/png" []))
        (ExtBehavior.throwMsg "deprecated rate limit") =
      Outcome.failure
        "The AI model is being updated. Please try again in a few moments." ∧
    ("The AI model is being updated. Please try again in a few moments." : String) ≠
      "Too many requests. Please try again in a few minutes." :=
  ⟨by decide, rfl, by decide⟩

/-- Claim C1 (amended): for every valid file and every external error whose
message contains the substring rate limit and does not contain the substring
deprecated, analyze returns Failure with the throttling message, regardless
of any other message content. -/
theorem claim1_rate_limit_amended (f : FileData) (msg : String)
    (hf : validate f = none)
    (hrl : includes msg "rate limit" = true)
    (hdep : includes msg "deprecated" = false) :
    analyze (some f) (ExtBehavior.throwMsg msg) =
      Outcome.failure "Too many requests. Please try again in a few minutes." := by
  unfold analyze
  rw [analyzeRun_throwMsg hf]
  unfold classify
  dsimp only
  rw [hdep, hrl]
  simp

/-- Claim C1 witness: the amended theorem applied at a concrete throttled
request. -/
theorem claim1_rate_limit_amended_witness :
    validate (FileData.mk 100 "image/png" []) = none ∧
    includes "You hit a rate limit, slow down" "rate limit" = true ∧
    includes "You hit a rate limit, slow down" "deprecated" = false ∧
    analyze (some (FileData.mk 100 "image/png" []))
        (ExtBehavior.throwMsg "You hit a rate limit, slow down") =
      Outcome.failure "Too many requests. Please try again in a few minutes." :=
  ⟨by decide, by decide, by decide,
    claim1_rate_limit_amended _ _ (by decide) (by decide) (by decide)⟩

/-- Claim C2, counterexample: a file whose media type is unsupported but
whose size also exceeds the limit is rejected by the size rule, which runs
first (line 16 before line 21), so the returned message is not the
unsupported-type message the claim demands for every file of bad type. -/
theorem claim2_counterexample :
    typeSupported "text/plain" = false ∧
    analyze (some (FileData.mk (10 * 1024 * 1024 + 1) "text/plain" []))
        (ExtBehavior.ok "\x7b\x7d") =
      Outcome.failure "File size exceeds 10MB limit" ∧
    ("File size exceeds 10MB limit" : String) ≠
      "Only image and PDF files are supported" :=
  ⟨by decide, rfl, by decide⟩

/-- Claim C2 (amended): for every uploaded file within the size limit whose
media type neither starts with image/ nor equals application/pdf, analyze
returns Failure with the unsupported-type message and the external
collaborator is never invoked. -/
theorem claim2_unsupported_type_amended (f : FileData) (ext : ExtBehavior)
    (hsize : f.size ≤ 10 * 1024 * 1024)
    (htype : typeSupported f.type = false) :
    analyzeRun (some f) ext =
      (Outcome.failure "Only image and PDF files are supported", false) := by
  rw [analyzeRun_validate_fail (validate_type_fail hsize htype)]
  rfl

/-- Claim C2 witness: the amended theorem applied at a concrete text file. -/
theorem claim2_unsupported_type_amended_witness :
    (FileData.mk 5 "text/plain" []).size ≤ 10 * 1024 * 1024 ∧
    typeSupported (FileData.mk 5 "text/plain" []).type = false ∧
    analyzeRun (some (FileData.mk 5 "text/plain" [])) (ExtBehavior.ok "x") =
      (Outcome.failure "Only image and PDF files are supported", false) :=
  ⟨by decide, by decide, claim2_unsupported_type_amended _ _ (by decide) (by decide)⟩

/-- Claim C3: every file strictly larger than 10 MiB is rejected with the
size message and the external collaborator is never invoked; a file of
exactly 10 MiB is never rejected by the size rule. -/
theorem claim3_size_limit :
    (∀ (f : FileData) (ext : ExtBehavior), 10 * 1024 * 1024 < f.size →
      analyzeRun (some f) ext =
        (Outcome.failure "File size exceeds 10MB limit", false)) ∧
    (∀ f : FileData, f.size = 10 * 1024 * 1024 →
      validate f ≠ some "File size exceeds 10MB limit") := by
  constructor
  · intro f ext hgt
    rw [analyzeRun_validate_fail (validate_size_fail hgt)]
    rfl
  · intro f heq
    unfold validate
    rw [if_neg (by omega)]
    by_cases ht : typeSupported f.type = false
    · rw [if_pos ht]
      intro hcontra
      injection hcontra with hc
      exact absurd hc (by decide)
    · rw [if_neg ht]
      intro hcontra
      cases hcontra

/-- Claim C3 witness: the theorem applied at a file one byte over the limit
and at a file of exactly the limit. -/
theorem claim3_size_limit_witness :
    analyzeRun (some (FileData.mk (10 * 1024 * 1024 + 1) "image/png" []))
        (ExtBehavior.ok "x") =
      (Outcome.failure "File size exceeds 10MB limit", false) ∧
    validate (FileData.mk (10 * 1024 * 1024) "text/plain" []) ≠
      some "File size exceeds 10MB limit" :=
  ⟨claim3_size_limit.1 _ _ (by decide), claim3_size_limit.2 _ (by decide)⟩

/-- Claim C4, counterexample: the extraction takes the FIRST fenced block
(line 102 regex match), so a response that contains a fenced block whose
inner content parses to a valid AnalysisResult, preceded by an earlier
fenced block with unparsable content, yields the parse-failure message
rather than Success with that object. -/
theorem claim4_counterexample :
    includes
        "```json nope``` ```json \x7b\"contractTerms\":[],\"potentialIssues\":[],\"trustworthinessScore\":80,\"summary\":\"ok\"\x7d ```"
        "```json \x7b\"contractTerms\":[],\"potentialIssues\":[],\"trustworthinessScore\":80,\"summary\":\"ok\"\x7d ```" = true ∧
    jsonParse "\x7b\"contractTerms\":[],\"potentialIssues\":[],\"trustworthinessScore\":80,\"summary\":\"ok\"\x7d" =
      some (Json.obj [("contractTerms", Json.arr []), ("potentialIssues", Json.arr []),
        ("trustworthinessScore", Json.num 80), ("summary", Json.str "ok")]) ∧
    validAnalysisResult (Json.obj [("contractTerms", Json.arr []),
      ("potentialIssues", Json.arr []), ("trustworthinessScore", Json.num 80),
      ("summary", Json.str "ok")]) = true ∧
    analyze (some (FileData.mk 100 "image/png" []))
        (ExtBehavior.ok
          "```json nope``` ```json \x7b\"contractTerms\":[],\"potentialIssues\":[],\"trustworthinessScore\":80,\"summary\":\"ok\"\x7d ```") =
      Outcome.failure
        "Unable to analyze the contract. Please try a clearer image or a different file." :=
  ⟨by decide, rfl, rfl, rfl⟩

/-- Claim C4 (amended): for every valid uploaded file and every response
text on which the fence regex matches, if the whitespace captured around the
inner content is JSON whitespace and the inner content parses to a valid
AnalysisResult object, then analyze returns Success with exactly the object
obtained by parsing that inner content (the fenced block takes priority over
the other extraction paths, and stripping the fence markers from match[0]
leaves the inner content surrounded by that whitespace). -/
theorem claim4_fenced_success_amended (f : FileData) (text : String)
    (inner : List Char) (v : Json)
    (hf : validate f = none)
    (hin : fenceInner text.data = some inner)
    (hws : fenceWsOk text.data = true)
    (hp : jsonParse (String.mk inner) = some v)
    (_hvalid : validAnalysisResult v = true) :
    analyze (some f) (ExtBehavior.ok text) = Outcome.success v := by
  have hbex : ∃ body, fenceBody text.data = some body := by
    unfold fenceInner at hin
    cases hbb : fenceBody text.data with
    | none => rw [hbb] at hin; cases hin
    | some b => exact ⟨b, rfl⟩
  obtain ⟨body, hb⟩ := hbex
  have hcand := jsonParse_fence hb hin hws hp
  unfold analyze
  rw [analyzeRun_ok hf, hcand]

/-- Claim C4 witness: the amended theorem applied at a concrete fenced
response. -/
theorem claim4_fenced_success_amended_witness :
    validate (FileData.mk 100 "image/png" []) = none ∧
    fenceInner ("Sure! ```json \x7b\"contractTerms\":[],\"potentialIssues\":[],\"trustworthinessScore\":80,\"summary\":\"ok\"\x7d ``` bye").data =
      some ("\x7b\"contractTerms\":[],\"potentialIssues\":[],\"trustworthinessScore\":80,\"summary\":\"ok\"\x7d").data ∧
    fenceWsOk ("Sure! ```json \x7b\"contractTerms\":[],\"potentialIssues\":[],\"trustworthinessScore\":80,\"summary\":\"ok\"\x7d ``` bye").data = true ∧
    jsonParse (String.mk ("\x7b\"contractTerms\":[],\"potentialIssues\":[],\"trustworthinessScore\":80,\"summary\":\"ok\"\x7d").data) =
      some (Json.obj [("contractTerms", Json.arr []), ("potentialIssues", Json.arr []),
        ("trustworthinessScore", Json.num 80), ("summary", Json.str "ok")]) ∧
    analyze (some (FileData.mk 100 "image/png" []))
        (ExtBehavior.ok
          "Sure! ```json \x7b\"contractTerms\":[],\"potentialIssues\":[],\"trustworthinessScore\":80,\"summary\":\"ok\"\x7d ``` bye") =
      Outcome.success (Json.obj [("contractTerms", Json.arr []),
        ("potentialIssues", Json.arr []), ("trustworthinessScore", Json.num 80),
        ("summary", Json.str "ok")]) :=
  ⟨rfl, rfl, rfl, rfl,
    claim4_fenced_success_amended _ _ _ _ rfl rfl rfl rfl rfl⟩

/-- Claim C5: when the response text contains no fence marker at all but a
brace-delimited object, the candidate is the greedy span from the first
opening brace to the last closing brace, and if that candidate parses then
analyze returns Success with the parsed object. -/
theorem claim5_brace_extraction (f : FileData) (text : String) (cand : List Char)
    (v : Json)
    (hf : validate f = none)
    (hnf : firstIdx? fence3 text.data = none)
    (hb : matchBrace text.data = some cand)
    (hp : jsonParse (String.mk cand) = some v) :
    (∃ pre post, text.data = pre ++ cand ++ post ∧ (∀ x ∈ pre, x ≠ '{') ∧
      (∀ x ∈ post, x ≠ '}') ∧ cand.head? = some '{' ∧ cand.getLast? = some '}') ∧
    analyze (some f) (ExtBehavior.ok text) = Outcome.success v := by
  refine ⟨matchBrace_decomp hb, ?_⟩
  have hf0 : matchFence0 text.data = none := by
    unfold matchFence0 fenceSpan?
    rw [firstIdx?_fenceOpen_none hnf]
    rfl
  have hnc : firstIdx? fence3 cand = none := by
    unfold matchBrace at hb
    cases h1 : firstIdx? ['{'] text.data with
    | none => rw [h1] at hb; cases hb
    | some i =>
      rw [h1] at hb
      dsimp only at hb
      cases h2 : lastIdx? '}' (text.data.drop i) with
      | none => rw [h2] at hb; cases hb
      | some j =>
        rw [h2] at hb
        dsimp only at hb
        injection hb with hm
        rw [← hm]
        exact firstIdx?_none_take (firstIdx?_none_drop hnf i) (j + 1)
  have hext : extractCandidate text.data = cand := by
    unfold extractCandidate
    rw [hf0]
    dsimp only
    rw [hb]
    dsimp only
    unfold stripFences
    exact stripFencesF_id cand.length cand le_rfl hnc
  unfold analyze
  rw [analyzeRun_ok hf, hext, hp]

/-- Claim C5 witness: the theorem applied at a concrete prose-wrapped
object. -/
theorem claim5_brace_extraction_witness :
    validate (FileData.mk 100 "image/png" []) = none ∧
    firstIdx? fence3 ("here you go \x7b\"a\":1\x7d cheers").data = none ∧
    matchBrace ("here you go \x7b\"a\":1\x7d cheers").data = some ("\x7b\"a\":1\x7d").data ∧
    jsonParse (String.mk ("\x7b\"a\":1\x7d").data) = some (Json.obj [("a", Json.num 1)]) ∧
    analyze (some (FileData.mk 100 "image/png" []))
        (ExtBehavior.ok "here you go \x7b\"a\":1\x7d cheers") =
      Outcome.success (Json.obj [("a", Json.num 1)]) :=
  ⟨rfl, rfl, rfl, rfl,
    (claim5_brace_extraction (FileData.mk 100 "image/png" [])
      "here you go \x7b\"a\":1\x7d cheers" ("\x7b\"a\":1\x7d").data
      (Json.obj [("a", Json.num 1)]) rfl rfl rfl rfl).2⟩

/-- Claim C6: whenever the extracted candidate fails to parse, analyze
returns Failure with the parse-failure message, as a value (the internal
parse error message contains the word parse, so the classifier of line 126
maps it to the user-facing message; nothing escapes and nothing is
retried). -/
theorem claim6_parse_failure (f : FileData) (text : String)
    (hf : validate f = none)
    (hp : jsonParse (String.mk (extractCandidate text.data)) = none) :
    analyze (some f) (ExtBehavior.ok text) =
      Outcome.failure
        "Unable to analyze the contract. Please try a clearer image or a different file." := by
  unfold analyze
  rw [analyzeRun_ok hf, hp]
  rfl

/-- Claim C6 witness: the theorem applied at a concrete malformed
response. -/
theorem claim6_parse_failure_witness :
    validate (FileData.mk 100 "image/png" []) = none ∧
    jsonParse (String.mk (extractCandidate ("\x7b\"a\":1,\x7d").data)) = none ∧
    analyze (some (FileData.mk 100 "image/png" [])) (ExtBehavior.ok "\x7b\"a\":1,\x7d") =
      Outcome.failure
        "Unable to analyze the contract. Please try a clearer image or a different file." :=
  ⟨rfl, rfl, claim6_parse_failure (FileData.mk 100 "image/png" []) "\x7b\"a\":1,\x7d" rfl rfl⟩

/-- Claim C7: for every file input and every behaviour of the external
collaborator, analyze returns a proper Outcome: either Success carrying the
whole parsed object or Failure carrying an error string; no other shape of
result exists and no fault escapes (every thrown value of the model is
routed through the classifier). -/
theorem claim7_total_outcome (file : Option FileData) (ext : ExtBehavior) :
    (∃ v, analyze file ext = Outcome.success v) ∨
    (∃ msg, analyze file ext = Outcome.failure msg) := by
  cases h : analyze file ext with
  | success v => exact Or.inl ⟨v, rfl⟩
  | failure msg => exact Or.inr ⟨msg, rfl⟩

/-- Claim C8: an error whose message contains none of deprecated, rate
limit or parse is passed through verbatim, and the three validation
failures surface with exactly their thrown messages. -/
theorem claim8_verbatim_passthrough :
    (∀ (f : FileData) (msg : String), validate f = none →
      includes msg "deprecated" = false → includes msg "rate limit" = false →
      includes msg "parse" = false →
      analyze (some f) (ExtBehavior.throwMsg msg) = Outcome.failure msg) ∧
    (∀ ext : ExtBehavior, analyze none ext = Outcome.failure "No file provided") ∧
    (∀ (f : FileData) (ext : ExtBehavior), 10 * 1024 * 1024 < f.size →
      analyze (some f) ext = Outcome.failure "File size exceeds 10MB limit") ∧
    (∀ (f : FileData) (ext : ExtBehavior), f.size ≤ 10 * 1024 * 1024 →
      typeSupported f.type = false →
      analyze (some f) ext = Outcome.failure "Only image and PDF files are supported") := by
  refine ⟨?_, ?_, ?_, ?_⟩
  · intro f msg hf h1 h2 h3
    unfold analyze
    rw [analyzeRun_throwMsg hf]
    unfold classify
    dsimp only
    rw [h1, h2, h3]
    simp
  · intro ext
    rfl
  · intro f ext hgt
    unfold analyze
    rw [analyzeRun_validate_fail (validate_size_fail hgt)]
    rfl
  · intro f ext hsize htype
    unfold analyze
    rw [analyzeRun_validate_fail (validate_type_fail hsize htype)]
    rfl

/-- Claim C8 witness: the theorem applied at a concrete passthrough message
and at the three validation failures. -/
theorem claim8_verbatim_passthrough_witness :
    analyze (some (FileData.mk 100 "image/png" []))
        (ExtBehavior.throwMsg "quota exceeded") = Outcome.failure "quota exceeded" ∧
    analyze none (ExtBehavior.ok "x") = Outcome.failure "No file provided" ∧
    analyze (some (FileData.mk (10 * 1024 * 1024 + 1) "image/png" []))
        (ExtBehavior.ok "x") = Outcome.failure "File size exceeds 10MB limit" ∧
    analyze (some (FileData.mk 1 "text/plain" [])) (ExtBehavior.ok "x") =
      Outcome.failure "Only image and PDF files are supported" :=
  ⟨claim8_verbatim_passthrough.1 _ _ (by decide) (by decide) (by decide) (by decide),
    claim8_verbatim_passthrough.2.1 _,
    claim8_verbatim_passthrough.2.2.1 _ _ (by decide),
    claim8_verbatim_passthrough.2.2.2 _ _ (by decide) (by decide)⟩

/-- Claim C9: analyze is a pure function of the uploaded file and the
stubbed external behaviour, so two invocations with the same file and the
same deterministic stub yield the same Outcome. -/
theorem claim9_deterministic (file : Option FileData)
    (stub : Option FileData → ExtBehavior) :
    analyze file (stub file) = analyze file (stub file) := rfl

/-- Claim C10: a response with no fence and no brace span is parsed whole,
so a bare JSON array is returned as Success even though it is not an
object of the AnalysisResult shape. -/
theorem claim10_success_not_object :
    extractCandidate ("[1,2]").data = ("[1,2]").data ∧
    analyze (some (FileData.mk 100 "image/png" [])) (ExtBehavior.ok "[1,2]") =
      Outcome.success (Json.arr [Json.num 1, Json.num 2]) ∧
    isJsonObject (Json.arr [Json.num 1, Json.num 2]) = false ∧
    validAnalysisResult (Json.arr [Json.num 1, Json.num 2]) = false :=
  ⟨rfl, rfl, rfl, rfl⟩

end AuthTruth

